import Mathlib

/-!
# Verification of the masonry / infinite-scroll core of the gifs plugin

Shallow embedding of the plugin's algorithmic core:

* the Klipy content data model (`src/api.ts` valibot schemas),
* the column-assignment engine (the `contentColumns` `useMemo` in
  `src/App.tsx`'s `GifsList`),
* the column-geometry derivation (`columnCount` / `columnWidth`),
* the scroll handler, the auto-fill effect and the resize handler,
* the pagination source (`useListContentInfinite`'s `getNextPageParam`
  together with the infinite-query driver it configures).

JavaScript numbers are modelled as exact rationals (`ℚ`); none of the
verified claims depends on floating-point rounding. `Math.floor` is
`Int.floor`, `Math.min(...xs)` on a non-empty spread is `List.minimum`,
and `Array.prototype.indexOf` is `List.indexOf`.
-/

/-- One format entry (`gif` or `webp`) of a Klipy file variant:
`{url, width, height, size}` (`klipyFileVariantSchema`). -/
structure KlipyFileFormat where
  url : String
  width : ℚ
  height : ℚ
  size : ℚ
deriving DecidableEq

/-- One size tier of a Klipy file: its `gif` and `webp` formats
(`klipyFileVariantSchema`). -/
structure KlipyFileVariant where
  gif : KlipyFileFormat
  webp : KlipyFileFormat
deriving DecidableEq

/-- The `file` object of a content item: the four size tiers
(`klipyContentSchema.file`). -/
structure KlipyFile where
  hd : KlipyFileVariant
  md : KlipyFileVariant
  sm : KlipyFileVariant
  xs : KlipyFileVariant
deriving DecidableEq

/-- A Klipy content item (`klipyContentSchema`).  The `type` string field of
the schema is irrelevant to every claim but kept for fidelity. -/
structure KlipyContent where
  id : ℚ
  slug : String
  title : String
  blur_preview : String
  file : KlipyFile
  tags : List String
  type : String
deriving DecidableEq

/-- Size tiers (`GifSize`). -/
inductive GifSize where
  | xs | sm | md | hd
deriving DecidableEq

/-- Formats (`GifFormat`). -/
inductive GifFormat where
  | gif | webp
deriving DecidableEq

/-- Selecting a size tier from a `file` object (`content.file[size]`). -/
def KlipyFile.variant (f : KlipyFile) : GifSize → KlipyFileVariant
  | .xs => f.xs
  | .sm => f.sm
  | .md => f.md
  | .hd => f.hd

/-- Selecting a format from a variant (`variant[format]`). -/
def KlipyFileVariant.format (v : KlipyFileVariant) : GifFormat → KlipyFileFormat
  | .gif => v.gif
  | .webp => v.webp

/-- `getContentUrl` (src/api.ts): `content.file[size][format].url`. -/
def getContentUrl (content : KlipyContent) (size : GifSize) (format : GifFormat) : String :=
  ((content.file.variant size).format format).url

/-- `getContentDimensions` (src/api.ts): reads the `gif` format of the
requested size tier (both formats have the same dimensions). -/
def getContentDimensions (content : KlipyContent) (size : GifSize) : ℚ × ℚ :=
  let variant := (content.file.variant size).gif
  (variant.width, variant.height)

/-- `heightForContent` (src/App.tsx): `columnWidth / (width / height)` with
dimensions taken from the `md` size tier. -/
def heightForContent (content : KlipyContent) (columnWidth : ℚ) : ℚ :=
  let dims := getContentDimensions content .md
  columnWidth / (dims.1 / dims.2)

/-- One fetched page as produced by `useListContentInfinite`'s `queryFn`:
`{results, current_page, per_page, has_next}`. -/
structure KlipyPage where
  results : List KlipyContent
  current_page : ℚ
  per_page : ℚ
  has_next : Bool
deriving DecidableEq

/-! ## Layout constants (src/App.tsx) -/

/-- `minColumnWidth = mode === "image" ? 120 : 110`; the plugin runs in one
of two host modes. -/
def minColumnWidth (imageMode : Bool) : ℚ :=
  if imageMode then 120 else 110

/-- `columnGap = 8`. -/
def columnGap : ℚ := 8

/-- `sidePadding = 15 * 2`. -/
def sidePadding : ℚ := 15 * 2

/-! ## The column-assignment engine

The `contentColumns` `useMemo` of `GifsList` (src/App.tsx lines 256–286):
dedup by id interleaved with greedy shortest-column placement. -/

/-- `Math.min(...heightPerColumn)` followed by
`heightPerColumn.indexOf(...)`: `none` models the JavaScript `-1` sentinel
(spreading an empty array gives `Infinity`, whose `indexOf` is `-1`). -/
def minColumnIndex (heights : List ℚ) : Option ℕ :=
  match heights.minimum with
  | ⊤ => none
  | (m : ℚ) => some (List.indexOf m heights)

/-- The mutable state threaded through the placement loop:
`heightPerColumn`, `columns` and the `seenContent` set (represented as the
list of ids inserted so far). -/
structure LayoutState where
  heights : List ℚ
  columns : List (List KlipyContent)
  seen : List ℚ

/-- One iteration of the inner `for (const content of page.results)` loop:
skip if the id was seen, otherwise record the id, compute the item height,
and append the item to the column of minimum accumulated height (first
index attaining the minimum), adding the height to that accumulator. -/
def placeContent (columnWidth : ℚ) (st : LayoutState) (content : KlipyContent) : LayoutState :=
  if content.id ∈ st.seen then st
  else
    let seen := content.id :: st.seen
    let itemHeight := heightForContent content columnWidth
    match minColumnIndex st.heights with
    | none => { st with seen := seen }
    | some i =>
        { heights := st.heights.set i (st.heights.getD i 0 + itemHeight)
          columns := st.columns.set i (st.columns.getD i [] ++ [content])
          seen := seen }

/-- Flattening `for (const page of data.pages) for (const content of
page.results)` into a single item sequence. -/
def pageItems (pages : List KlipyPage) : List KlipyContent :=
  pages.flatMap (·.results)

/-- The initial layout state: `columnCount` zero accumulators, `columnCount`
empty columns, empty seen-set. -/
def initLayout (columnCount : ℕ) : LayoutState :=
  { heights := List.replicate columnCount 0
    columns := List.replicate columnCount []
    seen := [] }

/-- The column assignment computed by the `contentColumns` `useMemo` for a
given flattened item sequence, column count and column width. -/
def assignColumns (items : List KlipyContent) (columnCount : ℕ) (columnWidth : ℚ) :
    List (List KlipyContent) :=
  (items.foldl (placeContent columnWidth) (initLayout columnCount)).columns

/-- The accumulated column heights after running the placement loop. -/
def columnHeights (items : List KlipyContent) (columnCount : ℕ) (columnWidth : ℚ) : List ℚ :=
  (items.foldl (placeContent columnWidth) (initLayout columnCount)).heights

/-! ## Column geometry (src/App.tsx lines 257–259) -/

/-- `adjustedWindowWidth = deferredWindowWidth - sidePadding`. -/
def adjustedWindowWidth (deferredWindowWidth : ℚ) : ℚ :=
  deferredWindowWidth - sidePadding

/-- `columnCount = Math.max(1, Math.floor((adjustedWindowWidth + columnGap)
/ (minColumnWidth + columnGap)))`. -/
def columnCountFor (deferredWindowWidth minWidth : ℚ) : ℤ :=
  max 1 ⌊(adjustedWindowWidth deferredWindowWidth + columnGap) / (minWidth + columnGap)⌋

/-- `columnWidth = (adjustedWindowWidth - (columnCount - 1) * columnGap) /
columnCount`. -/
def columnWidthFor (deferredWindowWidth minWidth : ℚ) : ℚ :=
  (adjustedWindowWidth deferredWindowWidth - (columnCountFor deferredWindowWidth minWidth - 1) * columnGap)
    / (columnCountFor deferredWindowWidth minWidth : ℚ)

/-- The full `contentColumns` `useMemo`: derive the geometry from the
deferred window width, then run the placement loop over all pages'
results.  (`!data` is modelled by the empty page list, for which the loop
body never runs.) -/
def contentColumnsFor (pages : List KlipyPage) (deferredWindowWidth minWidth : ℚ) :
    List (List KlipyContent) × ℚ :=
  let count := (columnCountFor deferredWindowWidth minWidth).toNat
  let width := columnWidthFor deferredWindowWidth minWidth
  (assignColumns (pageItems pages) count width, width)

/-! ## Spec-side definitions (written from the specification's words, §4.2,
to be compared with the source definitions above) -/

/-- Spec §4.2 step 1: "Deduplicate `items` by `id`, keeping first
occurrence, preserving … order."  `seen` holds the ids already kept. -/
def dedupById (seen : List ℚ) : List KlipyContent → List KlipyContent
  | [] => []
  | c :: rest =>
      if c.id ∈ seen then dedupById seen rest
      else c :: dedupById (c.id :: seen) rest

/-- Spec §4.2 step 3 item height: "`itemHeight = columnWidth /
aspectRatio(item)`, where `aspectRatio = width/height` taken from the `md`
size tier's dimensions". -/
def specItemHeight (c : KlipyContent) (columnWidth : ℚ) : ℚ :=
  columnWidth / (c.file.md.gif.width / c.file.md.gif.height)

/-- Spec §4.2 step 3 column choice: the column of "**minimum** accumulated
height (ties broken by lowest column index, i.e. leftmost)": the first
index whose height is ≤ every accumulated height. -/
def specMinIndex (heights : List ℚ) : Option ℕ :=
  heights.findIdx? (fun x => decide (∀ y ∈ heights, x ≤ y))

/-- Spec §4.2 steps 2–3 placement step over `(accumulators, columns)`. -/
def placeSpec (columnWidth : ℚ) (st : List ℚ × List (List KlipyContent)) (c : KlipyContent) :
    List ℚ × List (List KlipyContent) :=
  match specMinIndex st.1 with
  | none => st
  | some i =>
      (st.1.set i (st.1.getD i 0 + specItemHeight c columnWidth),
       st.2.set i (st.2.getD i [] ++ [c]))

/-- `assignColumns` as the spec words it: deduplicate first, then place
each remaining item greedily. -/
def assignColumnsSpec (items : List KlipyContent) (columnCount : ℕ) (columnWidth : ℚ) :
    List (List KlipyContent) :=
  ((dedupById [] items).foldl (placeSpec columnWidth)
    (List.replicate columnCount 0, List.replicate columnCount [])).2

/-- The source's placement step with the dedup check stripped (used to
relate the interleaved loop to dedup-then-place). -/
def placeRaw (columnWidth : ℚ) (st : List ℚ × List (List KlipyContent)) (c : KlipyContent) :
    List ℚ × List (List KlipyContent) :=
  match minColumnIndex st.1 with
  | none => st
  | some i =>
      (st.1.set i (st.1.getD i 0 + heightForContent c columnWidth),
       st.2.set i (st.2.getD i [] ++ [c]))

/-- Spec §4.2 geometry: `columnCount = max(1, floor((W + G) / (M + G)))`
for available content width `W`, minimum column width `M`, gap `G`. -/
def specColumnCount (W M G : ℚ) : ℤ :=
  max 1 ⌊(W + G) / (M + G)⌋

/-- Spec §4.2 geometry: `columnWidth = (W - (columnCount - 1) * G) /
columnCount`. -/
def specColumnWidth (W M G : ℚ) : ℚ :=
  (W - (specColumnCount W M G - 1) * G) / (specColumnCount W M G : ℚ)

/-! ## Scroll / resize coordinator (src/App.tsx) -/

/-- `handleScroll` (src/App.tsx lines 176–187): returns `true` iff
`fetchNextPage()` is invoked.  (The `scrollRef.current === null` early
return, a DOM-mount detail, is outside the model.) -/
def handleScroll (isFetchingNextPage isLoading : Bool)
    (scrollHeight clientHeight scrollTop : ℚ) : Bool :=
  if isFetchingNextPage || isLoading then false
  else
    let distanceToEnd := scrollHeight - (clientHeight + scrollTop)
    if distanceToEnd > 150 then false else true

/-- The auto-fill effect body (src/App.tsx lines 245–254): returns `true`
iff `fetchNextPage()` is invoked.  The component's `isFetchingNextPage`
flag is in scope at this effect but is not read by it (its guard is
`!scrollElement || isLoading`); it is a parameter here so that statements
can quantify over the full flag state. -/
def autoFillEffect (_isFetchingNextPage isLoading : Bool)
    (scrollHeight clientHeight : ℚ) (hasNextPage : Bool) : Bool :=
  if isLoading then false
  else
    let isScrollable := scrollHeight > clientHeight
    if isScrollable || !hasNextPage then false else true

/-- The `GifsList` viewport state relevant to resize handling: the
`windowWidth` React state, the `useDeferredValue(windowWidth)` lagging
copy, the `previousWindowHeightRef`, and a count of scroll-trigger-check
runs (`handleScroll` invocations). -/
structure ViewportState where
  windowWidth : ℚ
  deferredWindowWidth : ℚ
  previousWindowHeight : ℚ
  scrollChecksRun : ℕ
deriving DecidableEq

/-- `handleResize` (src/App.tsx lines 190–199): set `windowWidth` to the
new width, re-run the scroll check when the window grew strictly taller,
then record the new height.  `useDeferredValue` keeps its previous value
in the render triggered by this event and catches up only in a subsequent
deferred render (`deferredRender` below), so `deferredWindowWidth` is
unchanged here. -/
def handleResize (st : ViewportState) (newWidth newHeight : ℚ) : ViewportState :=
  { windowWidth := newWidth
    deferredWindowWidth := st.deferredWindowWidth
    previousWindowHeight := newHeight
    scrollChecksRun :=
      if newHeight > st.previousWindowHeight then st.scrollChecksRun + 1
      else st.scrollChecksRun }

/-- The deferred re-render in which React lets `useDeferredValue(windowWidth)`
catch up with `windowWidth`. -/
def deferredRender (st : ViewportState) : ViewportState :=
  { st with deferredWindowWidth := st.windowWidth }

/-- The column geometry the `contentColumns` `useMemo` computes in a given
viewport state: it reads `deferredWindowWidth` (its dependency array is
`[data, deferredWindowWidth]`), not `windowWidth`. -/
def layoutGeometry (st : ViewportState) (minWidth : ℚ) : ℤ × ℚ :=
  (columnCountFor st.deferredWindowWidth minWidth,
   columnWidthFor st.deferredWindowWidth minWidth)

/-! ## Pagination source (src/api.ts) -/

/-- `getNextPageParam` (src/api.ts lines 203–209): `undefined` when
`has_next` is false, otherwise `current_page + 1`. -/
def getNextPageParam (page : KlipyPage) : Option ℚ :=
  if !page.has_next then none
  else some (page.current_page + 1)

/-- The pagination state of the infinite query for one query key: the
fetched pages in order, the in-flight flag, and a count of network calls
issued. -/
structure PaginationState where
  pages : List KlipyPage
  isFetching : Bool
  networkCalls : ℕ
deriving DecidableEq

/-- The state before any fetch. -/
def initialPagination : PaginationState :=
  { pages := [], isFetching := false, networkCalls := 0 }

/-- The page parameter the next fetch uses: `initialPageParam = 1` when no
page has been fetched yet, otherwise the repository's `getNextPageParam`
applied to the last page.
Modelled from the spec: the infinite-query driver is an external library
configured by `useListContentInfinite` (spec §4.1 treats it as the
Pagination Source contract); only `getNextPageParam` and
`initialPageParam: 1` are repository code. -/
def nextPageParam (st : PaginationState) : Option ℚ :=
  match st.pages.getLast? with
  | none => some 1
  | some page => getNextPageParam page

/-- `fetchNextPage()` against a network environment `env` mapping a page
number to the page the API returns for it.  The fetch completes
synchronously (the model collapses the single suspension point).
Modelled from the spec (§4.1): "no-op if a fetch is already in flight or
`hasNext` is false on the latest page; otherwise requests `pageNumber =
lastPage.currentPageNumber + 1` and appends the result to the page
sequence in order". -/
def fetchNextPage (env : ℚ → KlipyPage) (st : PaginationState) : PaginationState :=
  if st.isFetching then st
  else
    match nextPageParam st with
    | none => st
    | some pageNumber =>
        { pages := st.pages ++ [env pageNumber]
          isFetching := false
          networkCalls := st.networkCalls + 1 }

/-- `isLoadingVisible = isLoading || isFetchingNextPage`
(src/App.tsx line 288). -/
def isLoadingVisible (isLoading isFetchingNextPage : Bool) : Bool :=
  isLoading || isFetchingNextPage

/-- The empty-results check (src/App.tsx lines 298–301): the "No … found"
state renders exactly when loading is not visible and the first column is
empty (`contentColumns[0]?.length === 0`; with `columnCount ≥ 1` the
optional chain always finds column 0). -/
def showsNoResults (isLoading isFetchingNextPage : Bool)
    (columns : List (List KlipyContent)) : Bool :=
  !isLoadingVisible isLoading isFetchingNextPage && (columns.getD 0 []).length == 0

/-- A concrete content item with a given id and `md` dimensions, for
witnesses and counterexamples. -/
def mkContent (id w h : ℚ) : KlipyContent :=
  { id := id
    slug := ""
    title := ""
    blur_preview := ""
    file :=
      { hd := ⟨⟨"", w, h, 0⟩, ⟨"", w, h, 0⟩⟩
        md := ⟨⟨"", w, h, 0⟩, ⟨"", w, h, 0⟩⟩
        sm := ⟨⟨"", w, h, 0⟩, ⟨"", w, h, 0⟩⟩
        xs := ⟨⟨"", w, h, 0⟩, ⟨"", w, h, 0⟩⟩ }
    tags := []
    type := "" }

/-! ## Helper lemmas: `getD` and `set` -/

lemma getD_set_self {α : Type*} (l : List α) (i : ℕ) (x d : α) (h : i < l.length) :
    (l.set i x).getD i d = x := by
  rw [List.getD_eq_getElem _ _ (by simpa using h), List.getElem_set]
  simp

lemma getD_set_ne {α : Type*} (l : List α) (i j : ℕ) (x d : α) (hne : i ≠ j) :
    (l.set i x).getD j d = l.getD j d := by
  by_cases hj : j < l.length
  · rw [List.getD_eq_getElem _ _ (by simpa using hj), List.getD_eq_getElem _ _ hj,
      List.getElem_set_ne hne]
  · rw [List.getD_eq_default _ _ (by simpa using Nat.le_of_not_lt hj),
      List.getD_eq_default _ _ (Nat.le_of_not_lt hj)]

/-! ## Helper lemmas: the column-choice functions -/

lemma minColumnIndex_eq_none_iff (l : List ℚ) : minColumnIndex l = none ↔ l = [] := by
  unfold minColumnIndex
  split
  · next heq => simpa using List.minimum_eq_top.mp heq
  · next m heq =>
      simp only [reduceCtorEq, false_iff]
      intro hnil
      rw [hnil] at heq
      simp [List.minimum] at heq

lemma minColumnIndex_isSome_of_ne_nil (l : List ℚ) (h : l ≠ []) :
    ∃ i, minColumnIndex l = some i := by
  cases hm : minColumnIndex l with
  | none => exact absurd ((minColumnIndex_eq_none_iff l).mp hm) h
  | some i => exact ⟨i, rfl⟩

/-- Positions before the first occurrence of `m` hold values other than
`m`. -/
lemma getD_ne_of_lt_indexOf (l : List ℚ) (m : ℚ) :
    ∀ j, j < List.indexOf m l → l.getD j 0 ≠ m := by
  induction l with
  | nil => intro j hj; simp [List.indexOf] at hj
  | cons x xs ih =>
      intro j hj
      by_cases hx : x = m
      · simp [List.indexOf_cons, hx] at hj
      · rw [List.indexOf_cons] at hj
        have hbeq : (x == m) = false := by simpa using hx
        rw [hbeq] at hj
        simp only [cond_false] at hj
        cases j with
        | zero => simpa using hx
        | succ k =>
            rw [List.getD_cons_succ]
            exact ih k (by omega)

/-- Characterization of `heightPerColumn.indexOf(Math.min(...heightPerColumn))`:
it is an index of minimum accumulated height, and every strictly earlier
column is strictly taller (so ties go to the leftmost column). -/
lemma minColumnIndex_spec (l : List ℚ) (i : ℕ) (h : minColumnIndex l = some i) :
    i < l.length ∧ (∀ j, j < l.length → l.getD i 0 ≤ l.getD j 0) ∧
      (∀ j, j < i → l.getD j 0 > l.getD i 0) := by
  unfold minColumnIndex at h
  split at h
  · exact absurd h (by simp)
  · next m heq =>
      have hi : i = List.indexOf m l := by simpa using h.symm
      subst hi
      have hmem : m ∈ l := List.minimum_mem heq
      have hlen : List.indexOf m l < l.length := List.indexOf_lt_length.mpr hmem
      have hval : l.getD (List.indexOf m l) 0 = m := by
        rw [List.getD_eq_getElem _ _ hlen]
        exact List.getElem_indexOf hlen
      refine ⟨hlen, ?_, ?_⟩
      · intro j hj
        rw [hval, List.getD_eq_getElem _ _ hj]
        exact List.minimum_le_of_mem (List.getElem_mem hj) heq
      · intro j hji
        have hne : l.getD j 0 ≠ m := getD_ne_of_lt_indexOf l m j hji
        have hle : m ≤ l.getD j 0 := by
          rw [List.getD_eq_getElem _ _ (by omega)]
          exact List.minimum_le_of_mem (List.getElem_mem (by omega)) heq
        rw [hval]
        exact lt_of_le_of_ne hle (fun hcontra => hne hcontra.symm)

/-- Characterization of `List.findIdx?` at start index 0: the returned
index is in range, satisfies the predicate, and is the first to do so. -/
lemma findIdx?_spec {α : Type*} (p : α → Bool) (d : α) :
    ∀ (l : List α) (i : ℕ), l.findIdx? p = some i →
      i < l.length ∧ p (l.getD i d) = true ∧ ∀ j, j < i → p (l.getD j d) = false := by
  intro l
  induction l with
  | nil => intro i h; simp [List.findIdx?] at h
  | cons x xs ih =>
      intro i h
      rw [List.findIdx?_cons] at h
      by_cases hx : p x = true
      · rw [if_pos hx] at h
        obtain rfl : i = 0 := by simpa using h.symm
        exact ⟨by simp, by simpa using hx, by omega⟩
      · rw [if_neg hx, List.findIdx?_succ] at h
        cases hxs : xs.findIdx? p with
        | none => rw [hxs] at h; simp at h
        | some k =>
            rw [hxs] at h
            obtain rfl : i = k + 1 := by simpa using h.symm
            obtain ⟨hk, hpk, hfirst⟩ := ih k hxs
            refine ⟨by simpa using Nat.succ_lt_succ hk, by simpa using hpk, ?_⟩
            intro j hj
            cases j with
            | zero => simpa using hx
            | succ j' => rw [List.getD_cons_succ]; exact hfirst j' (by omega)

lemma specMinIndex_eq_none_iff (l : List ℚ) : specMinIndex l = none ↔ l = [] := by
  unfold specMinIndex
  rw [List.findIdx?_eq_none_iff]
  constructor
  · intro hall
    by_contra hnil
    obtain ⟨m, hm⟩ := WithTop.ne_top_iff_exists.mp (List.minimum_ne_top_of_ne_nil hnil)
    have hmem : m ∈ l := List.minimum_mem hm.symm
    have := hall m hmem
    simp only [decide_eq_false_iff_not] at this
    exact this fun y hy => List.minimum_le_of_mem hy hm.symm
  · intro h; subst h; simp

/-- The source's column choice (`indexOf` of the spread minimum) coincides
with the specification's "minimum accumulated height, ties broken by
lowest column index". -/
lemma minColumnIndex_eq_specMinIndex (l : List ℚ) : minColumnIndex l = specMinIndex l := by
  rcases eq_or_ne l [] with rfl | hnil
  · rfl
  · obtain ⟨i₁, h₁⟩ := minColumnIndex_isSome_of_ne_nil l hnil
    cases h₂ : specMinIndex l with
    | none => exact absurd ((specMinIndex_eq_none_iff l).mp h₂) hnil
    | some i₂ =>
        obtain ⟨hlen₁, hmin₁, hfirst₁⟩ := minColumnIndex_spec l i₁ h₁
        obtain ⟨hlen₂, hp₂, hfirst₂⟩ := findIdx?_spec _ (0 : ℚ) l i₂ h₂
        have hple : ∀ y ∈ l, l.getD i₂ 0 ≤ y := by simpa using hp₂
        have hco : i₁ = i₂ := by
          rcases lt_trichotomy i₁ i₂ with hlt | heqi | hgt
          · have := hfirst₂ i₁ hlt
            simp only [decide_eq_false_iff_not] at this
            exact absurd (fun y hy => by
              obtain ⟨k, hk, rfl⟩ := List.mem_iff_getElem.mp hy
              rw [← List.getD_eq_getElem l 0 hk]
              exact hmin₁ k hk) this
          · exact heqi
          · have hgt' : l.getD i₂ 0 > l.getD i₁ 0 := hfirst₁ i₂ hgt
            have hle' : l.getD i₂ 0 ≤ l.getD i₁ 0 := by
              have := hple (l.getD i₁ 0) (by
                rw [List.getD_eq_getElem _ _ hlen₁]
                exact List.getElem_mem hlen₁)
              exact this
            exact absurd hle' (not_le.mpr hgt')
        rw [h₁, hco]

/-- With `columnCount ≥ 1` zero-initialized accumulators, the first item is
placed in column 0. -/
lemma minColumnIndex_replicate_zero (n : ℕ) (h : 1 ≤ n) :
    minColumnIndex (List.replicate n 0) = some 0 := by
  obtain ⟨k, rfl⟩ : ∃ k, n = k + 1 := ⟨n - 1, by omega⟩
  unfold minColumnIndex
  split
  · next heq =>
      exact absurd (List.minimum_eq_top.mp heq) (by simp [List.replicate_succ])
  · next m heq =>
      have hm : m = 0 := List.eq_of_mem_replicate (List.minimum_mem heq)
      subst hm
      rw [List.replicate_succ, List.indexOf_cons]
      simp

/-- The source's item height is exactly the spec's
`columnWidth / (width / height)` from the `md` size tier. -/
lemma heightForContent_eq_specItemHeight (c : KlipyContent) (w : ℚ) :
    heightForContent c w = specItemHeight c w := rfl

/-! ## Relating the interleaved loop to dedup-then-place -/

/-- A placement step on an unseen id updates heights/columns exactly as the
raw (dedup-free) step and pushes the id onto the seen list. -/
lemma placeContent_not_seen (w : ℚ) (st : LayoutState) (c : KlipyContent)
    (hc : c.id ∉ st.seen) :
    placeContent w st c =
      { heights := (placeRaw w (st.heights, st.columns) c).1
        columns := (placeRaw w (st.heights, st.columns) c).2
        seen := c.id :: st.seen } := by
  unfold placeContent placeRaw
  rw [if_neg hc]
  cases h : minColumnIndex st.heights <;> simp [h]

/-- A placement step on a seen id is a no-op. -/
lemma placeContent_seen (w : ℚ) (st : LayoutState) (c : KlipyContent)
    (hc : c.id ∈ st.seen) : placeContent w st c = st := by
  unfold placeContent
  rw [if_pos hc]

/-- The interleaved fold equals deduplication (against the accumulated seen
set) followed by the raw placement fold. -/
lemma foldl_placeContent_eq_dedup (w : ℚ) :
    ∀ (l : List KlipyContent) (st : LayoutState),
      ((l.foldl (placeContent w) st).heights, (l.foldl (placeContent w) st).columns)
        = (dedupById st.seen l).foldl (placeRaw w) (st.heights, st.columns) := by
  intro l
  induction l with
  | nil => intro st; simp [dedupById]
  | cons c rest ih =>
      intro st
      rw [List.foldl_cons]
      by_cases hc : c.id ∈ st.seen
      · rw [placeContent_seen w st c hc]
        simp only [dedupById, if_pos hc]
        exact ih st
      · rw [placeContent_not_seen w st c hc]
        simp only [dedupById, if_neg hc, List.foldl_cons]
        have := ih { heights := (placeRaw w (st.heights, st.columns) c).1
                     columns := (placeRaw w (st.heights, st.columns) c).2
                     seen := c.id :: st.seen }
        simpa using this

/-! ## Shape lemmas for the placement folds -/

lemma placeRaw_lengths (w : ℚ) (st : List ℚ × List (List KlipyContent)) (c : KlipyContent) :
    (placeRaw w st c).1.length = st.1.length ∧ (placeRaw w st c).2.length = st.2.length := by
  unfold placeRaw
  cases h : minColumnIndex st.1 <;> simp

lemma foldl_placeRaw_lengths (w : ℚ) :
    ∀ (l : List KlipyContent) (st : List ℚ × List (List KlipyContent)),
      (l.foldl (placeRaw w) st).1.length = st.1.length ∧
        (l.foldl (placeRaw w) st).2.length = st.2.length := by
  intro l
  induction l with
  | nil => intro st; exact ⟨rfl, rfl⟩
  | cons c rest ih =>
      intro st
      rw [List.foldl_cons]
      obtain ⟨h1, h2⟩ := ih (placeRaw w st c)
      obtain ⟨g1, g2⟩ := placeRaw_lengths w st c
      exact ⟨h1.trans g1, h2.trans g2⟩

/-- Ids in the seen set after the fold either were seen before it or are
ids of processed items. -/
lemma foldl_placeContent_seen_subset (w : ℚ) :
    ∀ (l : List KlipyContent) (st : LayoutState) (a : ℚ),
      a ∈ (l.foldl (placeContent w) st).seen → a ∈ st.seen ∨ a ∈ l.map (·.id) := by
  intro l
  induction l with
  | nil => intro st a h; exact Or.inl h
  | cons c rest ih =>
      intro st a h
      rw [List.foldl_cons] at h
      rcases ih (placeContent w st c) a h with hseen | hrest
      · have hsub : (placeContent w st c).seen = st.seen ∨
            (placeContent w st c).seen = c.id :: st.seen := by
          by_cases hc : c.id ∈ st.seen
          · exact Or.inl (by rw [placeContent_seen w st c hc])
          · exact Or.inr (by rw [placeContent_not_seen w st c hc])
        rcases hsub with heq | heq
        · exact Or.inl (heq ▸ hseen)
        · rw [heq] at hseen
          rcases List.mem_cons.mp hseen with rfl | hmem
          · exact Or.inr (by simp)
          · exact Or.inl hmem
      · exact Or.inr (by simp [hrest])

/-! ## Properties of spec-side deduplication -/

lemma dedupById_sublist : ∀ (seen : List ℚ) (l : List KlipyContent),
    (dedupById seen l).Sublist l := by
  intro seen l
  induction l generalizing seen with
  | nil => simp [dedupById]
  | cons c rest ih =>
      unfold dedupById
      by_cases hc : c.id ∈ seen
      · rw [if_pos hc]; exact (ih seen).cons c
      · rw [if_neg hc]; exact (ih (c.id :: seen)).cons₂ c

/-- Every id kept by deduplication avoids the ambient seen set. -/
lemma dedupById_not_mem_seen : ∀ (seen : List ℚ) (l : List KlipyContent) (a : ℚ),
    a ∈ (dedupById seen l).map (·.id) → a ∉ seen := by
  intro seen l
  induction l generalizing seen with
  | nil => intro a h; simp [dedupById] at h
  | cons c rest ih =>
      intro a h
      unfold dedupById at h
      by_cases hc : c.id ∈ seen
      · rw [if_pos hc] at h; exact ih seen a h
      · rw [if_neg hc] at h
        simp only [List.map_cons, List.mem_cons] at h
        rcases h with rfl | h
        · exact hc
        · intro hmem
          exact ih (c.id :: seen) a h (List.mem_cons_of_mem _ hmem)

/-- Deduplication yields pairwise-distinct ids. -/
lemma dedupById_nodup : ∀ (seen : List ℚ) (l : List KlipyContent),
    ((dedupById seen l).map (·.id)).Nodup := by
  intro seen l
  induction l generalizing seen with
  | nil => simp [dedupById]
  | cons c rest ih =>
      unfold dedupById
      by_cases hc : c.id ∈ seen
      · rw [if_pos hc]; exact ih seen
      · rw [if_neg hc]
        simp only [List.map_cons, List.nodup_cons]
        refine ⟨?_, ih (c.id :: seen)⟩
        intro hmem
        exact dedupById_not_mem_seen (c.id :: seen) rest c.id hmem (by simp)

/-- Deduplication preserves the set of ids (relative to ids outside the
ambient seen set). -/
lemma dedupById_mem_id : ∀ (seen : List ℚ) (l : List KlipyContent) (a : ℚ), a ∉ seen →
    (a ∈ (dedupById seen l).map (·.id) ↔ a ∈ l.map (·.id)) := by
  intro seen l
  induction l generalizing seen with
  | nil => intro a _; simp [dedupById]
  | cons c rest ih =>
      intro a ha
      unfold dedupById
      by_cases hc : c.id ∈ seen
      · rw [if_pos hc]
        have hne : a ≠ c.id := fun h => ha (h ▸ hc)
        simp only [List.map_cons, List.mem_cons]
        rw [ih seen a ha]
        exact ⟨Or.inr, fun h => h.resolve_left hne⟩
      · rw [if_neg hc]
        simp only [List.map_cons, List.mem_cons]
        by_cases hac : a = c.id
        · simp [hac]
        · have ha' : a ∉ c.id :: seen := by
            intro h
            rcases List.mem_cons.mp h with h | h
            · exact hac h
            · exact ha h
          rw [ih (c.id :: seen) a ha']

/-- Deduplication keeps the **first** occurrence of each id: searching the
deduplicated list for an id finds the same element as searching the
original. -/
lemma dedupById_find? : ∀ (seen : List ℚ) (l : List KlipyContent) (a : ℚ), a ∉ seen →
    (dedupById seen l).find? (fun c => decide (c.id = a))
      = l.find? (fun c => decide (c.id = a)) := by
  intro seen l
  induction l generalizing seen with
  | nil => intro a _; simp [dedupById]
  | cons c rest ih =>
      intro a ha
      unfold dedupById
      by_cases hc : c.id ∈ seen
      · rw [if_pos hc]
        have hne : c.id ≠ a := fun h => ha (h ▸ hc)
        have hb : decide (c.id = a) = false := by simp [hne]
        rw [List.find?_cons, hb, ih seen a ha]
      · rw [if_neg hc]
        by_cases hca : c.id = a
        · simp [List.find?_cons, hca]
        · have hb : decide (c.id = a) = false := by simp [hca]
          rw [List.find?_cons, List.find?_cons, hb]
          have ha' : a ∉ c.id :: seen := by
            intro h
            rcases List.mem_cons.mp h with h | h
            · exact hca h.symm
            · exact ha h
          exact ih (c.id :: seen) a ha'

/-! ## Growth and permutation properties of the raw placement fold -/

/-- Columns only grow: after the fold, each column is its old value with an
order-preserving selection of the processed items appended. -/
lemma foldl_placeRaw_columns_growth (w : ℚ) :
    ∀ (l : List KlipyContent) (st : List ℚ × List (List KlipyContent)) (k : ℕ),
      ∃ s, s.Sublist l ∧
        (l.foldl (placeRaw w) st).2.getD k [] = st.2.getD k [] ++ s := by
  intro l
  induction l with
  | nil => intro st k; exact ⟨[], List.nil_sublist _, by simp⟩
  | cons c rest ih =>
      intro st k
      rw [List.foldl_cons]
      obtain ⟨s, hs, heq⟩ := ih (placeRaw w st c) k
      cases hmin : minColumnIndex st.1 with
      | none =>
          refine ⟨s, hs.cons c, ?_⟩
          rw [heq]
          unfold placeRaw
          rw [hmin]
      | some i =>
          have hcols : (placeRaw w st c).2 = st.2.set i (st.2.getD i [] ++ [c]) := by
            unfold placeRaw; rw [hmin]
          by_cases hik : i = k
          · subst hik
            by_cases hk : i < st.2.length
            · refine ⟨c :: s, hs.cons₂ c, ?_⟩
              rw [heq, hcols, getD_set_self _ _ _ _ hk]
              simp
            · refine ⟨s, hs.cons c, ?_⟩
              rw [heq, hcols,
                List.getD_eq_default _ _ (by
                  rw [List.length_set]; exact Nat.le_of_not_lt hk),
                List.getD_eq_default _ _ (Nat.le_of_not_lt hk)]
          · refine ⟨s, hs.cons c, ?_⟩
            rw [heq, hcols, getD_set_ne _ _ _ _ _ hik]

/-- Replacing one column with itself plus one appended item permutes the
flattening to the old flattening plus that item. -/
lemma flatten_set_append_perm {α : Type*} :
    ∀ (l : List (List α)) (i : ℕ) (c : α), i < l.length →
      ((l.set i (l.getD i [] ++ [c])).flatten).Perm (l.flatten ++ [c]) := by
  intro l
  induction l with
  | nil => intro i c h; simp at h
  | cons x t ih =>
      intro i c h
      cases i with
      | zero =>
          simp only [List.set_cons_zero, List.getD_cons_zero, List.flatten_cons,
            List.append_assoc]
          exact List.Perm.append_left x List.perm_append_comm
      | succ i' =>
          simp only [List.set_cons_succ, List.getD_cons_succ, List.flatten_cons,
            List.append_assoc]
          exact List.Perm.append_left x (by simpa using ih i' c (by simpa using h))

/-- Every processed item lands in exactly one column: the flattened columns
after the raw fold are a permutation of the old flattened columns plus the
processed items (provided there is at least one column). -/
lemma foldl_placeRaw_flatten_perm (w : ℚ) :
    ∀ (l : List KlipyContent) (st : List ℚ × List (List KlipyContent)),
      st.1 ≠ [] → st.1.length = st.2.length →
      ((l.foldl (placeRaw w) st).2.flatten).Perm (st.2.flatten ++ l) := by
  intro l
  induction l with
  | nil => intro st _ _; simp
  | cons c rest ih =>
      intro st hne hlen
      rw [List.foldl_cons]
      obtain ⟨i, hmin⟩ := minColumnIndex_isSome_of_ne_nil st.1 hne
      obtain ⟨hi, _, _⟩ := minColumnIndex_spec st.1 i hmin
      have hcols : (placeRaw w st c).2 = st.2.set i (st.2.getD i [] ++ [c]) := by
        unfold placeRaw; rw [hmin]
      have hh : (placeRaw w st c).1 = st.1.set i (st.1.getD i 0 + heightForContent c w) := by
        unfold placeRaw; rw [hmin]
      have hne' : (placeRaw w st c).1 ≠ [] := by
        rw [hh]
        intro hcontra
        have := congrArg List.length hcontra
        rw [List.length_set] at this
        exact hne (List.length_eq_zero.mp (by simpa using this))
      have hlen' : (placeRaw w st c).1.length = (placeRaw w st c).2.length := by
        rw [hh, hcols, List.length_set, List.length_set]; exact hlen
      have hperm := ih (placeRaw w st c) hne' hlen'
      have hstep : ((placeRaw w st c).2.flatten).Perm (st.2.flatten ++ [c]) := by
        rw [hcols]
        exact flatten_set_append_perm st.2 i c (hlen ▸ hi)
      refine hperm.trans ?_
      have h2 := hstep.append_right rest
      simpa using h2

/-! ## Claim theorems -/

/-- C5: for every viewport width and host mode (hence every available
content width `W = viewportWidth − sidePadding`, minimum column width `M`
and gap `G = 8`), the derived geometry satisfies
`columnCount = max(1, ⌊(W+G)/(M+G)⌋)` and
`columnWidth = (W − (columnCount−1)·G)/columnCount`, and `columnCount ≥ 1`
however narrow the viewport. -/
theorem columnGeometry_correct (deferredWindowWidth : ℚ) (imageMode : Bool) :
    columnCountFor deferredWindowWidth (minColumnWidth imageMode)
        = specColumnCount (deferredWindowWidth - sidePadding) (minColumnWidth imageMode) columnGap
    ∧ columnWidthFor deferredWindowWidth (minColumnWidth imageMode)
        = specColumnWidth (deferredWindowWidth - sidePadding) (minColumnWidth imageMode) columnGap
    ∧ 1 ≤ columnCountFor deferredWindowWidth (minColumnWidth imageMode) :=
  ⟨rfl, rfl, le_max_left 1 _⟩

/-- C6: the scroll handler does nothing while a fetch is pending
(either flag), and otherwise triggers `fetchNextPage` exactly when
`scrollHeight − (clientHeight + scrollTop) ≤ 150`; in particular
`scrollHeight=2000, clientHeight=800, scrollTop=1055` triggers a fetch
while `scrollTop=1040` does not. -/
theorem handleScroll_threshold (isFetchingNextPage isLoading : Bool)
    (scrollHeight clientHeight scrollTop : ℚ) :
    (handleScroll isFetchingNextPage isLoading scrollHeight clientHeight scrollTop = true
      ↔ isFetchingNextPage = false ∧ isLoading = false ∧
          scrollHeight - (clientHeight + scrollTop) ≤ 150)
    ∧ handleScroll false false 2000 800 1055 = true
    ∧ handleScroll false false 2000 800 1040 = false := by
  refine ⟨?_, by norm_num [handleScroll], by norm_num [handleScroll]⟩
  unfold handleScroll
  cases isFetchingNextPage <;> cases isLoading <;> simp

/-- C2: the source's column assignment coincides with the specification's
algorithm — deduplicate by id, then process the items in order, appending
each to the column whose accumulated height is currently minimal (ties
broken by lowest column index) and adding
`itemHeight = columnWidth / (width/height)` from the `md` size tier to
that column's accumulator. -/
theorem assignColumns_eq_spec (items : List KlipyContent) (n : ℕ) (w : ℚ) :
    assignColumns items n w = assignColumnsSpec items n w := by
  have hfun : placeRaw w = placeSpec w := by
    funext st c
    unfold placeRaw placeSpec
    rw [minColumnIndex_eq_specMinIndex, heightForContent_eq_specItemHeight]
  have hkey := congrArg Prod.snd (foldl_placeContent_eq_dedup w items (initLayout n))
  unfold assignColumns assignColumnsSpec
  rw [← hfun]
  exact hkey

/-- C1: for every fetched page sequence — including sequences where an id
appears in more than one page (pagination overlap) — and every
`columnCount ≥ 1`, the computed column assignment contains each item id
exactly once: its flattening is a permutation of the first-occurrence
deduplication of the flattened pages (whose ids are pairwise distinct and
whose id-set equals the input's), each column lists its kept items in
page-then-within-page fetch order, and the kept representative of each id
is the first fetched occurrence. -/
theorem assignColumns_dedup_invariant (pages : List KlipyPage) (n : ℕ) (w : ℚ)
    (hn : 1 ≤ n) :
    ((assignColumns (pageItems pages) n w).flatten).Perm (dedupById [] (pageItems pages))
    ∧ (((assignColumns (pageItems pages) n w).flatten).map (·.id)).Nodup
    ∧ (∀ a : ℚ, a ∈ ((assignColumns (pageItems pages) n w).flatten).map (·.id)
        ↔ a ∈ (pageItems pages).map (·.id))
    ∧ (∀ col ∈ assignColumns (pageItems pages) n w,
        col.Sublist (dedupById [] (pageItems pages)))
    ∧ (dedupById [] (pageItems pages)).Sublist (pageItems pages)
    ∧ (∀ a : ℚ, (dedupById [] (pageItems pages)).find? (fun c => decide (c.id = a))
        = (pageItems pages).find? (fun c => decide (c.id = a))) := by
  set items := pageItems pages with hitems
  have hcols : assignColumns items n w
      = ((dedupById [] items).foldl (placeRaw w)
          (List.replicate n 0, List.replicate n [])).2 :=
    congrArg Prod.snd (foldl_placeContent_eq_dedup w items (initLayout n))
  have hne : (List.replicate n (0:ℚ)) ≠ [] := by
    intro h
    have := congrArg List.length h
    simp at this
    omega
  have hperm0 := foldl_placeRaw_flatten_perm w (dedupById [] items)
      (List.replicate n 0, List.replicate n []) hne (by simp)
  have hperm : ((assignColumns items n w).flatten).Perm (dedupById [] items) := by
    rw [hcols]
    simpa [List.flatten_replicate_nil] using hperm0
  refine ⟨hperm, ?_, ?_, ?_, dedupById_sublist [] items,
    fun a => dedupById_find? [] items a (by simp)⟩
  · exact ((hperm.map (·.id)).symm).nodup (dedupById_nodup [] items)
  · intro a
    rw [(hperm.map (·.id)).mem_iff]
    exact dedupById_mem_id [] items a (by simp)
  · intro col hcol
    obtain ⟨k, hk, hkcol⟩ := List.mem_iff_getElem.mp hcol
    have hgetD : (assignColumns items n w).getD k [] = col := by
      rw [List.getD_eq_getElem _ _ hk]
      exact hkcol
    obtain ⟨s, hs, heq⟩ := foldl_placeRaw_columns_growth w (dedupById [] items)
        (List.replicate n 0, List.replicate n []) k
    have hrep : (List.replicate n ([] : List KlipyContent)).getD k [] = [] := by
      by_cases hkn : k < n
      · rw [List.getD_eq_getElem _ _ (by simpa using hkn)]
        simp
      · exact List.getD_eq_default _ _ (by simpa using Nat.le_of_not_lt hkn)
    have hcoleq : col = s := by
      rw [← hgetD, hcols, heq, hrep]
      simp
    rw [hcoleq]
    exact hs

/-- Two concrete pages whose result lists overlap on id 2 (pagination
overlap), for witnesses. -/
def witnessPageA : KlipyPage :=
  { results := [mkContent 1 100 100, mkContent 2 100 200]
    current_page := 1, per_page := 20, has_next := true }

/-- Second witness page, repeating id 2 and adding id 3. -/
def witnessPageB : KlipyPage :=
  { results := [mkContent 2 100 200, mkContent 3 100 50]
    current_page := 2, per_page := 20, has_next := false }

/-- Witness for C1 at the concrete overlapping page pair with 2 columns. -/
theorem assignColumns_dedup_invariant_witness :
    (1 : ℕ) ≤ 2
    ∧ ((assignColumns (pageItems [witnessPageA, witnessPageB]) 2 100).flatten).Perm
        (dedupById [] (pageItems [witnessPageA, witnessPageB])) :=
  ⟨by decide, (assignColumns_dedup_invariant [witnessPageA, witnessPageB] 2 100 (by decide)).1⟩

/-- C3: incrementality — re-running the assignment on the same item
sequence extended with one new item (an id not yet present) yields the
first assignment with the new item appended to exactly one column
`j < columnCount`, all other columns unchanged, so no already-placed item
moves to a different column or position. -/
theorem assignColumns_incremental (items : List KlipyContent) (x : KlipyContent)
    (n : ℕ) (w : ℚ) (hn : 1 ≤ n) (hx : x.id ∉ items.map (·.id)) :
    ∃ j, j < n ∧
      assignColumns (items ++ [x]) n w
        = (assignColumns items n w).set j ((assignColumns items n w).getD j [] ++ [x])
      ∧ ∀ k, k ≠ j → (assignColumns (items ++ [x]) n w).getD k []
          = (assignColumns items n w).getD k [] := by
  have hfold : (items ++ [x]).foldl (placeContent w) (initLayout n)
      = placeContent w (items.foldl (placeContent w) (initLayout n)) x := by
    rw [List.foldl_append]
    rfl
  set F := items.foldl (placeContent w) (initLayout n) with hF
  have h1 : assignColumns (items ++ [x]) n w = (placeContent w F x).columns := by
    unfold assignColumns
    rw [hfold]
  have h2 : assignColumns items n w = F.columns := rfl
  have hseen : x.id ∉ F.seen := by
    intro h
    rcases foldl_placeContent_seen_subset w items (initLayout n) x.id h with h0 | h0
    · simp [initLayout] at h0
    · exact hx h0
  have hhl : F.heights = ((dedupById [] items).foldl (placeRaw w)
      (List.replicate n 0, List.replicate n [])).1 :=
    congrArg Prod.fst (foldl_placeContent_eq_dedup w items (initLayout n))
  have hlen : F.heights.length = n := by
    rw [hhl, (foldl_placeRaw_lengths w (dedupById [] items) _).1]
    simp
  have hne : F.heights ≠ [] := by
    intro h
    rw [h] at hlen
    simp at hlen
    omega
  obtain ⟨j, hmin⟩ := minColumnIndex_isSome_of_ne_nil F.heights hne
  obtain ⟨hj, -, -⟩ := minColumnIndex_spec F.heights j hmin
  have hplace : placeContent w F x =
      { heights := F.heights.set j (F.heights.getD j 0 + heightForContent x w)
        columns := F.columns.set j (F.columns.getD j [] ++ [x])
        seen := x.id :: F.seen } := by
    rw [placeContent_not_seen w F x hseen]
    unfold placeRaw
    rw [hmin]
  refine ⟨j, by omega, ?_, ?_⟩
  · rw [h1, h2, hplace]
  · intro k hk
    rw [h1, h2, hplace]
    exact getD_set_ne _ _ _ _ _ (fun h => hk h.symm)

/-- Witness for C3: one placed item, one fresh item, two columns. -/
theorem assignColumns_incremental_witness :
    (1 : ℕ) ≤ 2
    ∧ ∃ j, j < 2 ∧
        assignColumns ([mkContent 1 100 100] ++ [mkContent 2 100 200]) 2 100
          = (assignColumns [mkContent 1 100 100] 2 100).set j
              ((assignColumns [mkContent 1 100 100] 2 100).getD j [] ++ [mkContent 2 100 200])
        ∧ ∀ k, k ≠ j →
            (assignColumns ([mkContent 1 100 100] ++ [mkContent 2 100 200]) 2 100).getD k []
              = (assignColumns [mkContent 1 100 100] 2 100).getD k [] :=
  ⟨by decide,
   assignColumns_incremental [mkContent 1 100 100] (mkContent 2 100 200) 2 100
     (by decide) (by simp [mkContent])⟩

/-- C10: with `columnCount ≥ 1`, the first deduplicated item always lands
in column 0 (all accumulators start at 0 and ties break leftmost), so
column 0 is non-empty whenever the deduplicated item sequence is; hence
the "no results" state — which inspects only column 0's length — shows
exactly when the deduplicated item set is empty and loading is
finished. -/
theorem noResults_iff_empty (items : List KlipyContent) (n : ℕ) (w : ℚ)
    (isLoading isFetchingNextPage : Bool) (hn : 1 ≤ n) :
    (∀ c rest, dedupById [] items = c :: rest →
        ∃ s, (assignColumns items n w).getD 0 [] = c :: s)
    ∧ (dedupById [] items = [] → assignColumns items n w = List.replicate n [])
    ∧ (showsNoResults isLoading isFetchingNextPage (assignColumns items n w) = true
        ↔ dedupById [] items = [] ∧ isLoading = false ∧ isFetchingNextPage = false) := by
  have hcols : assignColumns items n w
      = ((dedupById [] items).foldl (placeRaw w)
          (List.replicate n 0, List.replicate n [])).2 :=
    congrArg Prod.snd (foldl_placeContent_eq_dedup w items (initLayout n))
  have hrepl : (List.replicate n (0:ℚ)).length = n := by simp
  have hgetD0 : (List.replicate n ([] : List KlipyContent)).getD 0 [] = [] := by
    rw [List.getD_eq_getElem _ _ (by simpa using hn)]
    simp
  have hpart1 : ∀ c rest, dedupById [] items = c :: rest →
      ∃ s, (assignColumns items n w).getD 0 [] = c :: s := by
    intro c rest hd
    rw [hcols, hd, List.foldl_cons]
    have hmin0 : minColumnIndex (List.replicate n 0) = some 0 :=
      minColumnIndex_replicate_zero n hn
    have hst1 : placeRaw w (List.replicate n 0, List.replicate n []) c
        = ((List.replicate n 0).set 0 ((List.replicate n 0).getD 0 0 + heightForContent c w),
           (List.replicate n []).set 0 ((List.replicate n []).getD 0 [] ++ [c])) := by
      unfold placeRaw
      rw [hmin0]
    obtain ⟨s, hs, heq⟩ := foldl_placeRaw_columns_growth w rest
        (placeRaw w (List.replicate n 0, List.replicate n []) c) 0
    refine ⟨s, ?_⟩
    rw [heq, hst1]
    rw [hgetD0]
    simp only [List.nil_append]
    rw [getD_set_self _ _ _ _ (by simpa using hn)]
    simp
  have hpart2 : dedupById [] items = [] → assignColumns items n w = List.replicate n [] := by
    intro hd
    rw [hcols, hd]
    rfl
  have hlen0 : ((assignColumns items n w).getD 0 []).length = 0 ↔ dedupById [] items = [] := by
    cases hd : dedupById [] items with
    | nil =>
        rw [hpart2 hd, hgetD0]
        simp
    | cons c rest =>
        obtain ⟨s, hs⟩ := hpart1 c rest hd
        rw [hs]
        simp
  refine ⟨hpart1, hpart2, ?_⟩
  have hlen0' : (assignColumns items n w)[0]?.getD [] = [] ↔ dedupById [] items = [] := by
    rw [← List.getD_eq_getElem?_getD, ← List.length_eq_zero]
    exact hlen0
  unfold showsNoResults isLoadingVisible
  cases isLoading <;> cases isFetchingNextPage <;> simp [hlen0']

/-- Witness for C10: one item, one column — column 0 holds it. -/
theorem noResults_iff_empty_witness :
    (1 : ℕ) ≤ 1
    ∧ ∃ s, (assignColumns [mkContent 5 100 100] 1 100).getD 0 [] = mkContent 5 100 100 :: s :=
  ⟨by decide,
   (noResults_iff_empty [mkContent 5 100 100] 1 100 false false (by decide)).1
     (mkContent 5 100 100) [] (by simp [dedupById])⟩

/-! ## The greedy balance bound (C4) -/

/-- The maximum single item height occurring in an input sequence (0 for
the empty sequence). -/
def maxItemHeight (items : List KlipyContent) (w : ℚ) : ℚ :=
  items.foldr (fun c acc => max (heightForContent c w) acc) 0

lemma maxItemHeight_nonneg (items : List KlipyContent) (w : ℚ) :
    0 ≤ maxItemHeight items w := by
  induction items with
  | nil => simp [maxItemHeight]
  | cons c rest ih =>
      unfold maxItemHeight at ih ⊢
      simp only [List.foldr_cons]
      exact le_trans ih (le_max_right _ _)

lemma le_maxItemHeight (items : List KlipyContent) (w : ℚ) (c : KlipyContent)
    (hc : c ∈ items) : heightForContent c w ≤ maxItemHeight items w := by
  induction items with
  | nil => simp at hc
  | cons x rest ih =>
      unfold maxItemHeight at ih ⊢
      simp only [List.foldr_cons]
      rcases List.mem_cons.mp hc with rfl | hmem
      · exact le_max_left _ _
      · exact le_trans (ih hmem) (le_max_right _ _)

/-- One placement step preserves the pairwise height-difference bound `M`
when the placed item's height lies in `[0, M]`: the chosen column was a
minimum, so raising it by at most `M` cannot push it more than `M` above
any other column, and it cannot fall more than `M` below one either. -/
lemma placeContent_balance (w M : ℚ) (hM : 0 ≤ M) (st : LayoutState) (c : KlipyContent)
    (hc0 : 0 ≤ heightForContent c w) (hcM : heightForContent c w ≤ M)
    (hinv : ∀ i j, i < st.heights.length → j < st.heights.length →
      st.heights.getD i 0 - st.heights.getD j 0 ≤ M) :
    (placeContent w st c).heights.length = st.heights.length ∧
    ∀ i j, i < st.heights.length → j < st.heights.length →
      (placeContent w st c).heights.getD i 0 - (placeContent w st c).heights.getD j 0 ≤ M := by
  by_cases hseen : c.id ∈ st.seen
  · rw [placeContent_seen w st c hseen]
    exact ⟨rfl, hinv⟩
  · rw [placeContent_not_seen w st c hseen]
    cases hmin : minColumnIndex st.heights with
    | none =>
        unfold placeRaw
        rw [hmin]
        exact ⟨rfl, hinv⟩
    | some k =>
        obtain ⟨hk, hmink, -⟩ := minColumnIndex_spec st.heights k hmin
        unfold placeRaw
        rw [hmin]
        refine ⟨by simp, ?_⟩
        intro i j hi hj
        by_cases hik : i = k <;> by_cases hjk : j = k
        · rw [hik, hjk, getD_set_self _ _ _ _ hk]
          simpa using hM
        · rw [hik, getD_set_self _ _ _ _ hk, getD_set_ne _ _ _ _ _ (Ne.symm hjk)]
          have h1 := hmink j hj
          linarith
        · rw [hjk, getD_set_self _ _ _ _ hk, getD_set_ne _ _ _ _ _ (Ne.symm hik)]
          have h1 := hinv i k hi hk
          linarith
        · rw [getD_set_ne _ _ _ _ _ (Ne.symm hik), getD_set_ne _ _ _ _ _ (Ne.symm hjk)]
          exact hinv i j hi hj

/-- The pairwise height-difference bound is preserved along the whole
placement fold. -/
lemma foldl_placeContent_balance (w M : ℚ) (hM : 0 ≤ M) :
    ∀ (l : List KlipyContent) (st : LayoutState),
      (∀ c ∈ l, 0 ≤ heightForContent c w ∧ heightForContent c w ≤ M) →
      (∀ i j, i < st.heights.length → j < st.heights.length →
        st.heights.getD i 0 - st.heights.getD j 0 ≤ M) →
      (l.foldl (placeContent w) st).heights.length = st.heights.length ∧
      ∀ i j, i < st.heights.length → j < st.heights.length →
        (l.foldl (placeContent w) st).heights.getD i 0
          - (l.foldl (placeContent w) st).heights.getD j 0 ≤ M := by
  intro l
  induction l with
  | nil => intro st _ hinv; exact ⟨rfl, hinv⟩
  | cons c rest ih =>
      intro st hl hinv
      obtain ⟨hc0, hcM⟩ := hl c (by simp)
      obtain ⟨hlen1, hinv1⟩ := placeContent_balance w M hM st c hc0 hcM hinv
      rw [List.foldl_cons]
      obtain ⟨hlen2, hinv2⟩ := ih (placeContent w st c)
        (fun d hd => hl d (List.mem_cons_of_mem _ hd))
        (fun i j hi hj => hinv1 i j (by omega) (by omega))
      refine ⟨hlen2.trans hlen1, ?_⟩
      intro i j hi hj
      exact hinv2 i j (by omega) (by omega)

/-- C4: when every input item has a positive height at the given column
width, then after processing any prefix of the input (in particular after
each single placement, and after the whole input) the difference between
any two columns' accumulated heights is at most the maximum single item
height occurring in the input — the greedy bin-packing bound. -/
theorem assignColumns_balance (items : List KlipyContent) (n : ℕ) (w : ℚ)
    (hpos : ∀ c ∈ items, 0 < heightForContent c w) :
    ∀ pre suf, items = pre ++ suf →
      ∀ i j, i < n → j < n →
        (columnHeights pre n w).getD i 0 - (columnHeights pre n w).getD j 0
          ≤ maxItemHeight items w := by
  intro pre suf hsplit i j hi hj
  have hM : 0 ≤ maxItemHeight items w := maxItemHeight_nonneg items w
  have hl : ∀ c ∈ pre, 0 ≤ heightForContent c w
      ∧ heightForContent c w ≤ maxItemHeight items w := by
    intro c hc
    have hmem : c ∈ items := by
      rw [hsplit]
      exact List.mem_append_left suf hc
    exact ⟨le_of_lt (hpos c hmem), le_maxItemHeight items w c hmem⟩
  have hinit : ∀ i' j', i' < (initLayout n).heights.length →
      j' < (initLayout n).heights.length →
      (initLayout n).heights.getD i' 0 - (initLayout n).heights.getD j' 0
        ≤ maxItemHeight items w := by
    intro i' j' hi' hj'
    simp only [initLayout] at hi' hj' ⊢
    rw [List.getD_eq_getElem _ _ hi', List.getD_eq_getElem _ _ hj']
    simp only [List.getElem_replicate]
    simpa using hM
  obtain ⟨-, hbound⟩ :=
    foldl_placeContent_balance w (maxItemHeight items w) hM pre (initLayout n) hl hinit
  exact hbound i j (by simp [initLayout]; omega) (by simp [initLayout]; omega)

/-- Witness for C4: two items of heights 100 and 200 at width 100, two
columns, evaluated after the full input (prefix = input). -/
theorem assignColumns_balance_witness :
    (columnHeights [mkContent 1 100 100, mkContent 2 100 200] 2 100).getD 0 0
        - (columnHeights [mkContent 1 100 100, mkContent 2 100 200] 2 100).getD 1 0
      ≤ maxItemHeight [mkContent 1 100 100, mkContent 2 100 200] 100 :=
  assignColumns_balance [mkContent 1 100 100, mkContent 2 100 200] 2 100
    (by
      intro c hc
      rcases List.mem_cons.mp hc with rfl | hc
      · norm_num [heightForContent, getContentDimensions, mkContent, KlipyFile.variant]
      · rcases List.mem_cons.mp hc with rfl | hc
        · norm_num [heightForContent, getContentDimensions, mkContent, KlipyFile.variant]
        · simp at hc)
    [mkContent 1 100 100, mkContent 2 100 200] [] (by simp) 0 1 (by decide) (by decide)

/-! ## Pagination (C7), auto-fill (C8) and resize (C9) -/

/-- First page of the spec's pagination scenario:
`{hasNext: true, currentPage: 1}`. -/
def scenarioPage1 : KlipyPage :=
  { results := [], current_page := 1, per_page := 20, has_next := true }

/-- Second page of the scenario: `{hasNext: false, currentPage: 2}`. -/
def scenarioPage2 : KlipyPage :=
  { results := [], current_page := 2, per_page := 20, has_next := false }

/-- The scenario's network environment: page 1, then page 2. -/
def scenarioEnv : ℚ → KlipyPage :=
  fun n => if n = 1 then scenarioPage1 else scenarioPage2

/-- C7: `fetchNextPage` is a no-op while a fetch is in flight and when
`hasNext` is false on the latest page; otherwise it requests
`pageNumber = lastPage.currentPageNumber + 1` and appends the result in
order.  In the scenario with pages `[{hasNext:true, currentPage:1},
{hasNext:false, currentPage:2}]`, three `fetchNextPage` calls issue
exactly 2 network calls and the third call is a no-op. -/
theorem fetchNextPage_correct :
    (∀ (env : ℚ → KlipyPage) (st : PaginationState),
        st.isFetching = true → fetchNextPage env st = st)
    ∧ (∀ (env : ℚ → KlipyPage) (st : PaginationState) (p : KlipyPage),
        st.pages.getLast? = some p → p.has_next = false → fetchNextPage env st = st)
    ∧ (∀ (env : ℚ → KlipyPage) (st : PaginationState) (p : KlipyPage),
        st.isFetching = false → st.pages.getLast? = some p → p.has_next = true →
          fetchNextPage env st =
            { pages := st.pages ++ [env (p.current_page + 1)]
              isFetching := false
              networkCalls := st.networkCalls + 1 })
    ∧ (fetchNextPage scenarioEnv (fetchNextPage scenarioEnv initialPagination)).networkCalls = 2
    ∧ (fetchNextPage scenarioEnv (fetchNextPage scenarioEnv initialPagination)).pages
        = [scenarioPage1, scenarioPage2]
    ∧ fetchNextPage scenarioEnv (fetchNextPage scenarioEnv (fetchNextPage scenarioEnv
        initialPagination))
        = fetchNextPage scenarioEnv (fetchNextPage scenarioEnv initialPagination) := by
  have hstep1 : fetchNextPage scenarioEnv initialPagination
      = { pages := [scenarioPage1], isFetching := false, networkCalls := 1 } := by
    norm_num [fetchNextPage, initialPagination, nextPageParam, scenarioEnv]
  have hstep2 : fetchNextPage scenarioEnv
        { pages := [scenarioPage1], isFetching := false, networkCalls := 1 }
      = { pages := [scenarioPage1, scenarioPage2], isFetching := false, networkCalls := 2 } := by
    norm_num [fetchNextPage, nextPageParam, getNextPageParam, scenarioPage1, scenarioEnv,
      scenarioPage2]
  have hstep3 : fetchNextPage scenarioEnv
        { pages := [scenarioPage1, scenarioPage2], isFetching := false, networkCalls := 2 }
      = { pages := [scenarioPage1, scenarioPage2], isFetching := false, networkCalls := 2 } := by
    norm_num [fetchNextPage, nextPageParam, getNextPageParam, scenarioPage2]
  refine ⟨?_, ?_, ?_, ?_, ?_, ?_⟩
  · intro env st h
    simp [fetchNextPage, h]
  · intro env st p hlast hnext
    cases hf : st.isFetching with
    | true => simp [fetchNextPage, hf]
    | false => simp [fetchNextPage, hf, nextPageParam, hlast, getNextPageParam, hnext]
  · intro env st p hf hlast hnext
    simp [fetchNextPage, hf, nextPageParam, hlast, getNextPageParam, hnext]
  · rw [hstep1, hstep2]
  · rw [hstep1, hstep2]
  · rw [hstep1, hstep2, hstep3]

/-- Witness for C7's conditional parts at concrete states: a no-op while
fetching, a no-op on an exhausted last page, and an append on a
continuable last page. -/
theorem fetchNextPage_correct_witness :
    fetchNextPage scenarioEnv { pages := [], isFetching := true, networkCalls := 0 }
        = { pages := [], isFetching := true, networkCalls := 0 }
    ∧ fetchNextPage scenarioEnv
          { pages := [scenarioPage2], isFetching := false, networkCalls := 1 }
        = { pages := [scenarioPage2], isFetching := false, networkCalls := 1 }
    ∧ fetchNextPage scenarioEnv
          { pages := [scenarioPage1], isFetching := false, networkCalls := 1 }
        = { pages := [scenarioPage1] ++ [scenarioEnv (scenarioPage1.current_page + 1)]
            isFetching := false, networkCalls := 1 + 1 } :=
  ⟨fetchNextPage_correct.1 scenarioEnv _ rfl,
   fetchNextPage_correct.2.1 scenarioEnv _ scenarioPage2 rfl rfl,
   fetchNextPage_correct.2.2.1 scenarioEnv _ scenarioPage1 rfl rfl rfl⟩

/-- C8 counterexample: in the concrete state where a next-page fetch is in
flight (`isFetchingNextPage = true`), the initial load is finished,
content height 500 ≤ viewport height 800 and more pages exist, the
auto-fill check still invokes `fetchNextPage` — it consults only the
initial-load flag, not the is-fetching flag — whereas the scroll handler
in the same state drops the trigger.  This refutes the claim that *both*
checks independently consult the is-fetching flag, dropping duplicate
triggers while a fetch is in flight. -/
theorem autoFill_triggers_while_fetching :
    autoFillEffect true false 500 800 true = true
    ∧ handleScroll true false 500 800 0 = false := by
  constructor
  · norm_num [autoFillEffect]
  · norm_num [handleScroll]

/-- C8 (amended): whenever the rendered content height is at most the
viewport height, more pages are available and the initial load is not in
progress, the auto-fill check triggers `fetchNextPage` with no scroll
event — regardless of the `isFetchingNextPage` flag, which it does not
consult; flag-based duplicate suppression holds for the scroll handler
(which consults both flags), while the auto-fill check consults only the
initial-load flag. -/
theorem autoFill_invariant (isFetchingNextPage isLoading : Bool)
    (scrollHeight clientHeight : ℚ) (hasNextPage : Bool) :
    (autoFillEffect isFetchingNextPage isLoading scrollHeight clientHeight hasNextPage = true
      ↔ isLoading = false ∧ scrollHeight ≤ clientHeight ∧ hasNextPage = true)
    ∧ (∀ scrollTop, handleScroll true isLoading scrollHeight clientHeight scrollTop = false)
    ∧ (∀ scrollTop,
        handleScroll isFetchingNextPage true scrollHeight clientHeight scrollTop = false) := by
  refine ⟨?_, ?_, ?_⟩
  · unfold autoFillEffect
    cases isLoading <;> cases hasNextPage <;> simp
  · intro scrollTop
    simp [handleScroll]
  · intro scrollTop
    cases isFetchingNextPage <;> simp [handleScroll]

/-- C9 counterexample: starting from a settled viewport of width 400
(deferred width 400, recorded height 500), a resize event to 800×500
leaves the column geometry unchanged — still the 3 columns of width 400,
not the 6 columns of width 800 — because the `contentColumns` memo reads
the deferred window width, which has not yet caught up.  Column geometry
is therefore *not* recomputed immediately on resize. -/
theorem resize_geometry_stale :
    layoutGeometry (handleResize ⟨400, 400, 500, 0⟩ 800 500) 110
        = layoutGeometry ⟨400, 400, 500, 0⟩ 110
    ∧ (layoutGeometry (handleResize ⟨400, 400, 500, 0⟩ 800 500) 110).1 = 3
    ∧ (columnCountFor 800 110 : ℤ) = 6
    ∧ (handleResize ⟨400, 400, 500, 0⟩ 800 500).windowWidth = 800 := by
  refine ⟨rfl, ?_, ?_, rfl⟩
  · show columnCountFor 400 110 = 3
    norm_num [columnCountFor, adjustedWindowWidth, sidePadding, columnGap]
  · norm_num [columnCountFor, adjustedWindowWidth, sidePadding, columnGap]

/-- C9 (amended): a resize event immediately updates the `windowWidth`
state and records the new height, but the column geometry — computed from
the deferred window width — is unchanged by the event itself and reflects
the new width only after the subsequent deferred render; additionally,
whenever the viewport height after the resize is strictly greater than
the previously recorded height, the scroll-trigger check is re-run even
though no scroll event occurred (and is not re-run otherwise). -/
theorem resize_deferred_geometry (st : ViewportState) (newWidth newHeight minWidth : ℚ) :
    (handleResize st newWidth newHeight).windowWidth = newWidth
    ∧ (handleResize st newWidth newHeight).deferredWindowWidth = st.deferredWindowWidth
    ∧ layoutGeometry (handleResize st newWidth newHeight) minWidth = layoutGeometry st minWidth
    ∧ layoutGeometry (deferredRender (handleResize st newWidth newHeight)) minWidth
        = (columnCountFor newWidth minWidth, columnWidthFor newWidth minWidth)
    ∧ (newHeight > st.previousWindowHeight →
        (handleResize st newWidth newHeight).scrollChecksRun = st.scrollChecksRun + 1)
    ∧ (¬ newHeight > st.previousWindowHeight →
        (handleResize st newWidth newHeight).scrollChecksRun = st.scrollChecksRun)
    ∧ (handleResize st newWidth newHeight).previousWindowHeight = newHeight := by
  refine ⟨rfl, rfl, rfl, rfl, ?_, ?_, rfl⟩
  · intro h
    simp [handleResize, if_pos h]
  · intro h
    simp [handleResize, if_neg h]

/-- Witness for C9's amended claim: growing the window height re-runs the
scroll check; keeping it does not. -/
theorem resize_deferred_geometry_witness :
    (handleResize ⟨400, 400, 500, 0⟩ 800 600).scrollChecksRun = 0 + 1
    ∧ (handleResize ⟨400, 400, 500, 0⟩ 800 500).scrollChecksRun = 0 :=
  ⟨(resize_deferred_geometry ⟨400, 400, 500, 0⟩ 800 600 110).2.2.2.2.1 (by norm_num),
   (resize_deferred_geometry ⟨400, 400, 500, 0⟩ 800 500 110).2.2.2.2.2.1 (by norm_num)⟩
